import Mathlib

/-!
Verification of the Audiobook-Conversion-Kit scripts.

Python strings are modelled as `List Char` (`Str`); the scripts' helper
functions (`str.split`, `str.join`, `str.replace`, …) are modelled by
executable Lean functions with the same left-to-right semantics, and each
script-level function (`split_text` in audiobook.py, `split_into_chunks`
in cleanup.py, `create_podcast_feed` in podcast_feed.py, `do_GET` in
server.py) is translated statement by statement.  External collaborators
(the Kokoro TTS model, the Ollama chat call, the filesystem, the clock)
are passed in as explicit oracle functions / data.
-/

/-- Python strings, modelled as lists of characters. -/
abbrev Str := List Char

/-- A Lean string literal as a Python string value. -/
def pystr (s : String) : Str := s.data

/-- Python `text.replace(old, new)` for single-character `old`/`new`. -/
def replaceChar (old new : Char) (s : Str) : Str :=
  s.map (fun c => if c = old then new else c)

/-- Helper for splitting: prepend a character to the first piece of a split
result (used when the scanned character is not part of a separator). -/
def consHead (c : Char) : List Str → List Str
  | [] => [[c]]
  | p :: ps => (c :: p) :: ps

/-- Python `s.split(sep)` for a two-character separator `[a, b]`:
non-overlapping, left to right; always returns at least one piece. -/
def split2 (a b : Char) : Str → List Str
  | [] => [[]]
  | [c] => [[c]]
  | c :: d :: rest =>
    if c = a ∧ d = b then [] :: split2 a b rest
    else consHead c (split2 a b (d :: rest))

/-- Python `s.split(sep)` for a one-character separator `a`. -/
def split1 (a : Char) : Str → List Str
  | [] => [[]]
  | c :: rest =>
    if c = a then [] :: split1 a rest
    else consHead c (split1 a rest)

/-- Python `sep.join(pieces)`. -/
def joinSep (sep : Str) : List Str → Str
  | [] => []
  | [x] => x
  | x :: y :: rest => x ++ sep ++ joinSep sep (y :: rest)

/-- One step of Python `s.replace(pat, "")` with fuel (the fuel is always at
least the length of the remaining input, so it never runs out): delete every
non-overlapping occurrence of `pat`, scanning left to right. -/
def removeAllFuel (pat : Str) : Nat → Str → Str
  | _, [] => []
  | 0, s => s
  | fuel + 1, c :: rest =>
    if pat ≠ [] ∧ pat.isPrefixOf (c :: rest) then
      removeAllFuel pat fuel (List.drop (pat.length - 1) rest)
    else c :: removeAllFuel pat fuel rest

/-- Python `s.replace(pat, "")` for a non-empty pattern: delete every
non-overlapping occurrence of `pat` from `s`, scanning left to right. -/
def removeAll (pat s : Str) : Str :=
  removeAllFuel pat s.length s

/-- Whitespace characters for word splitting (Python `str.split()` with no
argument treats any whitespace run as one separator). -/
def isWsChar (c : Char) : Bool :=
  c = ' ' || c = '\n' || c = '\t' || c = '\r'

/-- Accumulator version of whitespace word splitting. -/
def wordsAux : Str → Str → List Str
  | [], acc => if acc.isEmpty then [] else [acc.reverse]
  | c :: rest, acc =>
    if isWsChar c then
      if acc.isEmpty then wordsAux rest [] else acc.reverse :: wordsAux rest []
    else wordsAux rest (c :: acc)

/-- The whitespace-separated words of a string, in order (Python
`s.split()`): the reference notion of "the input's words". -/
def wordsOf (s : Str) : List Str := wordsAux s []

/-! # audiobook.py: `split_text`

Source (lines 65-90): sentences = `text.replace('\n', ' ').split('. ')`;
each sentence except one equal to `sentences[-1]` gets `'. '` re-appended;
a greedy accumulator flushes the current chunk when adding the next
sentence would push `current_length` over `max_length`. -/

/-- The separator `'. '` that `split_text` splits on and re-appends. -/
def sepDotSpace : Str := ['.', ' ']

/-- `text.replace('\n', ' ').split('. ')` from audiobook.py line 72. -/
def sentencesOf (text : Str) : List Str :=
  split2 '.' ' ' (replaceChar '\n' ' ' text)

/-- Line 76 of audiobook.py: `sentence + '. ' if sentence != sentences[-1]
else sentence` (note: comparison is by value, not by position). -/
def toUnit (lastS : Str) (sentence : Str) : Str :=
  if sentence = lastS then sentence else sentence ++ sepDotSpace

/-- The sentence units `split_text` accumulates: every sentence with its
separator re-appended (except a sentence equal to the last one). -/
def sentenceUnits (text : Str) : List Str :=
  (sentencesOf text).map (toUnit ((sentencesOf text).getLastD []))

/-- The accumulator loop of `split_text` (audiobook.py lines 74-89), state
`(chunks, current_chunk, current_length)`. -/
def stLoop (lastS : Str) (maxLen : Nat) :
    List Str → List Str × List Str × Nat → List Str
  | [], (chunks, cur, _) =>
    if cur.isEmpty then chunks else chunks ++ [cur.flatten]
  | sentence :: rest, (chunks, cur, clen) =>
    let s := toUnit lastS sentence
    if clen + s.length > maxLen then
      if cur.isEmpty then
        stLoop lastS maxLen rest (chunks, cur ++ [s], clen + s.length)
      else
        stLoop lastS maxLen rest (chunks ++ [cur.flatten], [s], s.length)
    else
      stLoop lastS maxLen rest (chunks, cur ++ [s], clen + s.length)

/-- `split_text(text, max_length)` from audiobook.py lines 65-90. -/
def split_text (text : Str) (maxLen : Nat) : List Str :=
  stLoop ((sentencesOf text).getLastD []) maxLen (sentencesOf text) ([], [], 0)

/-! # cleanup.py: `split_into_chunks` (lines 26-97) -/

/-- The sentence-ending characters of cleanup.py line 58. -/
def sentenceSeps : List Char := ['.', '!', '?', ';']

/-- `any(word.endswith(sep) for sep in ['.', '!', '?', ';'])`. -/
def endsWithSep (w : Str) : Bool :=
  match w.getLast? with
  | some c => sentenceSeps.contains c
  | none => false

/-- The word loop of cleanup.py lines 51-67: build `sentences` from `words`,
cutting after a separator-ending word once the accumulated text is longer
than `min_chunk_size`; state `(sentences, current_sentence)`. -/
def sentLoop (minSize : Nat) : List Str → List Str × List Str → List Str
  | [], (sents, curSent) =>
    if curSent.isEmpty then sents else sents ++ [joinSep [' '] curSent]
  | w :: rest, (sents, curSent) =>
    let curSent2 := curSent ++ [w]
    let stext := joinSep [' '] curSent2
    if endsWithSep w = true ∧ minSize < stext.length then
      sentLoop minSize rest (sents ++ [stext], [])
    else
      sentLoop minSize rest (sents, curSent2)

/-- The sentence-combining loop of cleanup.py lines 70-81: pack sentences
into chunks of at most `max_chunk_size`; returns the chunks emitted so far
and the final `(temp_chunk, temp_size)`. -/
def combLoop (maxSize : Nat) :
    List Str → List Str × List Str × Nat → List Str × List Str × Nat
  | [], st => st
  | s :: rest, (emitted, temp, tsize) =>
    if tsize + s.length + 1 ≤ maxSize then
      combLoop maxSize rest (emitted, temp ++ [s], tsize + s.length + 1)
    else
      if temp.isEmpty then
        combLoop maxSize rest (emitted, [s], s.length)
      else
        combLoop maxSize rest (emitted ++ [joinSep [' '] temp], [s], s.length)

/-- The body of the over-budget branch of the paragraph loop (cleanup.py
lines 44-88), after the conditional flush: split an over-long paragraph at
sentence boundaries and pack the sentences (lines 45-85), otherwise append
the paragraph (lines 86-88); maps the post-flush state to the next state. -/
def sicOverStep (maxSize minSize : Nat) (p : Str) :
    List Str × List Str × Nat → List Str × List Str × Nat :=
  fun st =>
    if p.length > maxSize then
      let sents := sentLoop minSize (split1 ' ' p) ([], [])
      let packed := combLoop maxSize sents (st.1, [], 0)
      if packed.2.1.isEmpty then (packed.1, st.2.1, st.2.2)
      else (packed.1, st.2.1 ++ [joinSep [' '] packed.2.1], packed.2.2)
    else (st.1, st.2.1 ++ [p], st.2.2 + p.length + 2)

/-- The paragraph loop of cleanup.py lines 35-91, state
`(chunks, current_chunk, current_size)`: when adding the paragraph would
exceed `max_chunk_size`, flush only once `current_size` has reached
`min_chunk_size`, then handle the paragraph with `sicOverStep`. -/
def sicLoop (maxSize minSize : Nat) :
    List Str → List Str × List Str × Nat → List Str
  | [], (chunks, cur, _) =>
    if cur.isEmpty then chunks else chunks ++ [joinSep ['\n', '\n'] cur]
  | p :: rest, (chunks, cur, csize) =>
    if csize + p.length + 2 > maxSize then
      sicLoop maxSize minSize rest
        (sicOverStep maxSize minSize p
          (if minSize ≤ csize then (chunks ++ [joinSep ['\n', '\n'] cur], [], 0)
           else (chunks, cur, csize)))
    else
      sicLoop maxSize minSize rest (chunks, cur ++ [p], csize + p.length + 2)

/-- `split_into_chunks(text, max_chunk_size, min_chunk_size)` from
cleanup.py lines 26-97 (defaults in the source: 3000 and 1500). -/
def split_into_chunks (text : Str) (maxSize minSize : Nat) : List Str :=
  sicLoop maxSize minSize (split2 '\n' '\n' text) ([], [], 0)

/-! # audiobook.py: module namespace and the `__main__` call

Python executes `def` statements in order and a later `def` of the same
name rebinds it, so the module's namespace maps each name to its *last*
definition.  A call raises `TypeError` when the argument count is not
accepted by the resolved function's parameter list. -/

/-- A Python function's accepted positional-argument counts (`minArgs` =
parameters without defaults, `maxArgs` = all parameters). -/
structure PyParams where
  minArgs : Nat
  maxArgs : Nat
deriving DecidableEq

/-- The pipeline stages the body of `process_file` (audiobook.py lines
143-196) performs when it runs. -/
inductive PipelineStage
  | chunking
  | synthesis
  | outputWriting
deriving DecidableEq

/-- The outcome of calling a module-level function by name. -/
inductive CallResult
  | nameError
  | typeError
  | ran (stages : List PipelineStage)
deriving DecidableEq

/-- The top-level `def` statements of audiobook.py in source order, with
each function's accepted positional-argument counts:
`process_file(input_file, voice, use_gpu=False)` at line 32 accepts 2-3
arguments; the second `process_file(input_file, voice)` at line 143
accepts exactly 2. -/
def audiobookModuleDefs : List (Str × PyParams) :=
  [ (pystr "get_valid_input_file", ⟨0, 0⟩)
  , (pystr "choose_device", ⟨0, 0⟩)
  , (pystr "process_file", ⟨2, 3⟩)
  , (pystr "choose_voice", ⟨0, 0⟩)
  , (pystr "split_text", ⟨1, 2⟩)
  , (pystr "initialize_model", ⟨0, 1⟩)
  , (pystr "text_to_speech", ⟨6, 6⟩)
  , (pystr "concatenate_audio_files", ⟨2, 2⟩)
  , (pystr "process_file", ⟨2, 2⟩) ]

/-- Name resolution in a Python module namespace: the last `def` of the
name wins. -/
def resolveDef (env : List (Str × PyParams)) (name : Str) : Option PyParams :=
  ((env.filter (fun e => e.1 == name)).getLast?).map (fun e => e.2)

/-- The stages the (second) `process_file` body would perform if invoked:
chunking (line 164), synthesis (lines 171-179), output writing (line 184). -/
def processFileBodyStages : List PipelineStage :=
  [PipelineStage.chunking, PipelineStage.synthesis, PipelineStage.outputWriting]

/-- The `__main__` block's call `process_file(input_file, voice, use_gpu)`
(audiobook.py line 219): resolve the name in the module namespace and
check the argument count 3 against the resolved parameter list. -/
def audiobookMainCall : CallResult :=
  match resolveDef audiobookModuleDefs (pystr "process_file") with
  | none => CallResult.nameError
  | some p =>
    if p.minArgs ≤ 3 ∧ 3 ≤ p.maxArgs then CallResult.ran processFileBodyStages
    else CallResult.typeError

/-! # Pipeline drivers with external calls as oracles

audiobook.py lines 168-190: per chunk, `text_to_speech` returns a path or
`None` (it catches every exception at lines 120-122); only non-`None`
results are collected, and the collected audio is concatenated.
cleanup.py lines 5-24 and 108-136: `clean_text_with_ollama` returns the
cleaned text, or the *original* chunk when the external call raises; the
results are joined with a newline. -/

/-- `clean_text_with_ollama(text_chunk, model_name)` (cleanup.py lines
5-24) with the Ollama call as an oracle: `some cleaned` models a normal
response, `none` models a raised exception, which the `except` branch
turns into the original `text_chunk`. -/
def clean_text_with_ollama (oracle : Str → Option Str) (chunk : Str) : Str :=
  match oracle chunk with
  | some cleaned => cleaned
  | none => chunk

/-- The chunk loop of `process_text_file` (cleanup.py lines 121-128),
accumulating `cleaned_chunks`. -/
def cleanupLoop (oracle : Str → Option Str) : List Str → List Str → List Str
  | [], acc => acc
  | c :: rest, acc =>
    cleanupLoop oracle rest (acc ++ [clean_text_with_ollama oracle c])

/-- The final output written by `process_text_file` (cleanup.py line 132):
`'\n'.join(cleaned_chunks)`. -/
def cleanedJoin (oracle : Str → Option Str) (chunks : List Str) : Str :=
  joinSep ['\n'] (cleanupLoop oracle chunks [])

/-- Modelled from the spec: the output the claim describes, with a failed
chunk's contribution *omitted* from the final joined artifact. -/
def cleanedJoinOmittedSpec (oracle : Str → Option Str) (chunks : List Str) : Str :=
  joinSep ['\n'] (chunks.filterMap oracle)

/-- The chunk loop of the audiobook `process_file` (audiobook.py lines
171-179): `text_to_speech` (with its internal try/except) is the oracle
`tts`, taking the 1-based chunk number and the chunk; a `some` result is
appended to `audio_files`, a `none` result is skipped. -/
def audiobookChunkLoop (tts : Nat → Str → Option (List Int)) :
    Nat → List Str → List (List Int) → List (List Int)
  | _, [], acc => acc
  | i, c :: rest, acc =>
    match tts i c with
    | some audioData => audiobookChunkLoop tts (i + 1) rest (acc ++ [audioData])
    | none => audiobookChunkLoop tts (i + 1) rest acc

/-- The final artifact of the audiobook `process_file` (audiobook.py lines
181-185): the concatenation of the collected chunk audio, or nothing when
every chunk failed (`if audio_files:`). -/
def audiobookArtifact (tts : Nat → Str → Option (List Int))
    (chunks : List Str) : Option (List Int) :=
  let files := audiobookChunkLoop tts 1 chunks []
  if files.isEmpty then none else some files.flatten

/-- Modelled from the spec: the successful chunks' audio in order, failed
chunks omitted (what the collected `audio_files` should be). -/
def successAudiosSpec (tts : Nat → Str → Option (List Int)) :
    Nat → List Str → List (List Int)
  | _, [] => []
  | i, c :: rest =>
    match tts i c with
    | some a => a :: successAudiosSpec tts (i + 1) rest
    | none => successAudiosSpec tts (i + 1) rest

/-! # podcast_feed.py: `create_podcast_feed` (lines 8-87)

The directory is modelled as the list of files `Path(dir).glob` would
enumerate (name, mtime, size); the clock (`datetime.now()`, line 25) is
an explicit `now` argument.  Items carry exactly the file-derived fields
the source writes into each `<item>`. -/

/-- A file of the audiobooks directory: its name, its modification time
and its size in bytes. -/
structure FileInfo where
  name : Str
  mtime : Nat
  size : Nat
deriving DecidableEq

/-- One `<item>` element of the feed (podcast_feed.py lines 42-75). -/
structure FeedItem where
  title : Str
  pubMtime : Nat
  enclosureName : Str
  enclosureLength : Nat
  guidName : Str
  guidMtime : Nat
  durationMinutes : Nat
  durationSeconds : Nat
deriving DecidableEq

/-- The feed document (the `<channel>` element): constant metadata plus
`lastBuildDate` (from the clock, line 25) and the item list. -/
structure PodcastFeed where
  feedTitle : Str
  feedDescription : Str
  lastBuildDate : Nat
  items : List FeedItem
deriving DecidableEq

/-- `Path(file).stem`: the file name without its final extension (a dot at
position 0 does not start an extension). -/
def stemOf (name : Str) : Str :=
  match name.reverse.findIdx? (fun c => c = '.') with
  | none => name
  | some k =>
    let i := name.length - 1 - k
    if i = 0 then name else name.take i

/-- The glob pattern suffix of `*_audiobook.mp3` (podcast_feed.py line 35):
a file matches exactly when its name ends with this. -/
def audiobookGlobSuffix : Str := pystr "_audiobook.mp3"

/-- Stable insertion step for sorting by a key, descending (equal keys keep
their relative order, as Python's stable `list.sort` does). -/
def insertByDesc {α : Type} (key : α → Nat) (x : α) : List α → List α
  | [] => [x]
  | y :: ys => if key y ≤ key x then x :: y :: ys else y :: insertByDesc key x ys

/-- `files.sort(key=lambda x: os.path.getmtime(x), reverse=True)`
(podcast_feed.py line 39): stable sort, newest first. -/
def sortByDesc {α : Type} (key : α → Nat) : List α → List α
  | [] => []
  | x :: xs => insertByDesc key x (sortByDesc key xs)

/-- The `<item>` built for one file (podcast_feed.py lines 42-75): title =
`file.stem.replace("_audiobook", "")`; pubDate and guid from the mtime;
enclosure from name and size; duration estimated as
`size // (1024*1024)` minutes and `(size % (1024*1024)) // (17*1024)`
seconds. -/
def itemOfFile (f : FileInfo) : FeedItem :=
  { title := removeAll (pystr "_audiobook") (stemOf f.name)
  , pubMtime := f.mtime
  , enclosureName := f.name
  , enclosureLength := f.size
  , guidName := f.name
  , guidMtime := f.mtime
  , durationMinutes := f.size / (1024 * 1024)
  , durationSeconds := (f.size % (1024 * 1024)) / (17 * 1024) }

/-- `create_podcast_feed(audiobooks_dir, feed_title, feed_description)`
(podcast_feed.py lines 8-87): filter the directory by the glob pattern,
sort newest-first by mtime, and emit the document. -/
def create_podcast_feed (dir : List FileInfo) (feedTitle feedDescription : Str)
    (now : Nat) : PodcastFeed :=
  let files := dir.filter (fun f => audiobookGlobSuffix.isSuffixOf f.name)
  let sorted := sortByDesc (fun f => f.mtime) files
  { feedTitle := feedTitle
  , feedDescription := feedDescription
  , lastBuildDate := now
  , items := sorted.map itemOfFile }

/-! # server.py: `PodcastHandler.do_GET` (lines 14-45)

The filesystem is an association list from relative path to file bytes;
`os.path.exists`/`open` are lookups in it. -/

/-- The request path prefix `"/audio/"` of server.py line 24. -/
def audioPathMarker : Str := pystr "/audio/"

/-- A response of the handler: the feed as `application/xml`, file bytes as
`audio/mpeg`, a 404 error, or delegation to the generic static handler
(`super().do_GET()`, line 42). -/
inductive HttpReply
  | okXml (body : Str)
  | okAudioMpeg (body : Str)
  | err404
  | fallbackStatic
deriving DecidableEq

/-- The server's working directory: relative file path to contents. -/
abbrev ServerFS := List (Str × Str)

/-- `os.path.exists(p)` plus `open(p).read()`: the first entry named `p`. -/
def lookupFS (fs : ServerFS) (p : Str) : Option Str :=
  (fs.find? (fun e => e.1 == p)).map (fun e => e.2)

/-- `PodcastHandler.do_GET` (server.py lines 14-45): `"/"`, `"/feed"` and
`"/feed.xml"` serve the feed document; a path starting with `"/audio/"`
serves the file named by `path.replace("/audio/", "")` (deleting *every*
occurrence) as `audio/mpeg` when it exists and 404 otherwise; every other
path falls through to the generic static handler. -/
def do_GET (fs : ServerFS) (feedDoc : Str) (path : Str) : HttpReply :=
  if path = pystr "/" ∨ path = pystr "/feed" ∨ path = pystr "/feed.xml" then
    HttpReply.okXml feedDoc
  else if audioPathMarker.isPrefixOf path then
    match lookupFS fs (removeAll audioPathMarker path) with
    | some bytes => HttpReply.okAudioMpeg bytes
    | none => HttpReply.err404
  else HttpReply.fallbackStatic


/-! # Helper lemmas about the string primitives -/

lemma split2_ne_nil (a b : Char) (s : Str) : split2 a b s ≠ [] := by
  induction s using split2.induct a b with
  | case1 => simp [split2]
  | case2 c => simp [split2]
  | case3 c d rest h ih => simp [split2, h]
  | case4 c d rest h ih =>
    rw [split2, if_neg h]
    cases hsp : split2 a b (d :: rest) with
    | nil => simp [consHead]
    | cons p ps => simp [consHead]

lemma joinSep_consHead (sep : Str) (c : Char) (l : List Str) :
    joinSep sep (consHead c l) = c :: joinSep sep l := by
  cases l with
  | nil => simp [consHead, joinSep]
  | cons p ps =>
    cases ps with
    | nil => simp [consHead, joinSep]
    | cons q qs => simp [consHead, joinSep]

lemma joinSep_split2 (a b : Char) (s : Str) :
    joinSep [a, b] (split2 a b s) = s := by
  induction s using split2.induct a b with
  | case1 => simp [split2, joinSep]
  | case2 c => simp [split2, joinSep]
  | case3 c d rest h ih =>
    rw [split2, if_pos h]
    cases hsp : split2 a b rest with
    | nil => exact absurd hsp (split2_ne_nil a b rest)
    | cons p ps =>
      rw [hsp] at ih
      simp [joinSep, ih, h.1, h.2]
  | case4 c d rest h ih =>
    rw [split2, if_neg h, joinSep_consHead, ih]

lemma getLastD_irrel {α : Type} (l : List α) (h : l ≠ []) (d e : α) :
    l.getLastD d = l.getLastD e := by
  rw [List.getLastD_eq_getLast?, List.getLastD_eq_getLast?]
  cases hq : l.getLast? with
  | none => exact absurd (List.getLast?_eq_none_iff.mp hq) h
  | some x => rfl

lemma toUnit_last (lastS : Str) : toUnit lastS lastS = lastS := by
  simp [toUnit]

lemma toUnit_of_ne (lastS s : Str) (h : s ≠ lastS) :
    toUnit lastS s = s ++ sepDotSpace := by
  simp [toUnit, h]

lemma flatten_map_toUnit :
    ∀ (l : List Str), l ≠ [] →
      (∀ x ∈ l.dropLast, x ≠ l.getLastD []) →
      (l.map (toUnit (l.getLastD []))).flatten = joinSep sepDotSpace l := by
  intro l
  induction l with
  | nil => intro h; exact absurd rfl h
  | cons x xs ih =>
    intro _ hne
    cases xs with
    | nil => simp [toUnit, joinSep]
    | cons y ys =>
      have hlast : (x :: y :: ys).getLastD ([] : Str) = (y :: ys).getLastD [] := by
        rw [List.getLastD_cons]
        exact getLastD_irrel (y :: ys) (by simp) x []
      have hx : x ≠ (x :: y :: ys).getLastD [] := by
        apply hne
        simp [List.dropLast]
      have hrec : ∀ z ∈ (y :: ys).dropLast, z ≠ (y :: ys).getLastD [] := by
        intro z hz
        have hz2 : z ∈ (x :: y :: ys).dropLast := by
          simp [List.dropLast]
          right
          simpa using hz
        have := hne z hz2
        rwa [hlast] at this
      rw [List.map_cons, List.flatten_cons, hlast]
      rw [hlast] at hx
      rw [toUnit_of_ne _ _ hx, ih (by simp) hrec]
      show x ++ sepDotSpace ++ joinSep sepDotSpace (y :: ys) =
        x ++ sepDotSpace ++ joinSep sepDotSpace (y :: ys)
      rfl

lemma stLoop_flatten (lastS : Str) (maxLen : Nat) :
    ∀ (sents chunks cur : List Str) (clen : Nat),
      (stLoop lastS maxLen sents (chunks, cur, clen)).flatten =
        chunks.flatten ++ cur.flatten ++ (sents.map (toUnit lastS)).flatten := by
  intro sents
  induction sents with
  | nil =>
    intro chunks cur clen
    cases cur with
    | nil => simp [stLoop]
    | cons x xs => simp [stLoop]
  | cons sentence rest ih =>
    intro chunks cur clen
    rw [stLoop]
    by_cases h1 : clen + (toUnit lastS sentence).length > maxLen
    · rw [if_pos h1]
      cases cur with
      | nil =>
        rw [if_pos (by simp)]
        rw [ih]
        simp [List.append_assoc]
      | cons x xs =>
        rw [if_neg (by simp)]
        rw [ih]
        simp [List.append_assoc]
    · rw [if_neg h1, ih]
      simp [List.append_assoc]

lemma wordsAux_replaceChar :
    ∀ (s acc : Str), wordsAux (replaceChar '\n' ' ' s) acc = wordsAux s acc := by
  intro s
  induction s with
  | nil => intro acc; simp [replaceChar]
  | cons c rest ih =>
    intro acc
    by_cases hc : c = '\n'
    · subst hc
      have h1 : replaceChar '\n' ' ' ('\n' :: rest) = ' ' :: replaceChar '\n' ' ' rest := by
        simp [replaceChar]
      rw [h1, wordsAux, wordsAux]
      have hws1 : isWsChar ' ' = true := by decide
      have hws2 : isWsChar '\n' = true := by decide
      rw [hws1, hws2]
      simp only [if_true]
      by_cases ha : acc.isEmpty
      · simp [ha, ih]
      · simp [ha, ih]
    · have h1 : replaceChar '\n' ' ' (c :: rest) = c :: replaceChar '\n' ' ' rest := by
        simp [replaceChar, hc]
      rw [h1, wordsAux, wordsAux]
      by_cases hw : isWsChar c
      · simp only [hw, if_true]
        by_cases ha : acc.isEmpty
        · simp [ha, ih]
        · simp [ha, ih]
      · simp only [hw]
        simp [ih]

lemma wordsOf_replaceChar (s : Str) :
    wordsOf (replaceChar '\n' ' ' s) = wordsOf s :=
  wordsAux_replaceChar s []

lemma sentencesOf_ne_nil (text : Str) : sentencesOf text ≠ [] :=
  split2_ne_nil '.' ' ' (replaceChar '\n' ' ' text)

lemma split_text_flatten (text : Str) (maxLen : Nat)
    (h : ∀ s ∈ (sentencesOf text).dropLast, s ≠ (sentencesOf text).getLastD []) :
    (split_text text maxLen).flatten = replaceChar '\n' ' ' text := by
  rw [split_text, stLoop_flatten]
  simp only [List.flatten_nil, List.nil_append]
  rw [flatten_map_toUnit (sentencesOf text) (sentencesOf_ne_nil text) h]
  show joinSep ['.', ' '] (split2 '.' ' ' (replaceChar '\n' ' ' text)) = _
  exact joinSep_split2 '.' ' ' (replaceChar '\n' ' ' text)

/-! # Claim theorems: C1 and C8 -/

/-- Claim C1 (counterexample): on the input `"a. a"` with the source's
default maximum size 500, `split_text` returns `["aa"]` — the sentence
`"a"` occurs earlier than its final position, so the by-value comparison
at line 76 fails to re-append `'. '` to the first occurrence, and the
concatenated chunks `"aa"` do not reproduce the input's words
`["a.", "a"]`. -/
theorem c1_counterexample :
    ¬ (wordsOf (List.flatten (split_text (pystr "a. a") 500)) =
        wordsOf (pystr "a. a")) := by decide

/-- Claim C1 (amended): provided no sentence before the last equals the
last sentence (the `sentence != sentences[-1]` value comparison then
coincides with a positional one), the chunks returned by `split_text`,
concatenated in order, equal the input with newlines replaced by spaces,
and hence reproduce the input's words in their original sequence. -/
theorem c1_amended (text : Str) (maxLen : Nat)
    (h : ∀ s ∈ (sentencesOf text).dropLast, s ≠ (sentencesOf text).getLastD []) :
    wordsOf (List.flatten (split_text text maxLen)) = wordsOf text := by
  rw [split_text_flatten text maxLen h, wordsOf_replaceChar]

/-- Witness for C1 (amended) at the concrete input `"Hi. There"` with
maximum size 5. -/
theorem c1_amended_witness :
    (∀ s ∈ (sentencesOf (pystr "Hi. There")).dropLast,
        s ≠ (sentencesOf (pystr "Hi. There")).getLastD []) ∧
      wordsOf (List.flatten (split_text (pystr "Hi. There") 5)) =
        wordsOf (pystr "Hi. There") :=
  ⟨by decide, c1_amended (pystr "Hi. There") 5 (by decide)⟩

/-- Claim C8: on the input `"A. B. C."` with maximum size 3, `split_text`
returns exactly `["A. ", "B. ", "C."]`. -/
theorem c8_split_text_example :
    split_text (pystr "A. B. C.") 3 = [pystr "A. ", pystr "B. ", pystr "C."] := by
  decide

lemma stLoop_chunk_bound (lastS : Str) (maxLen : Nat) (U : List Str) :
    ∀ (sents chunks cur : List Str) (clen : Nat),
      (∀ s ∈ sents, toUnit lastS s ∈ U) →
      (∀ x ∈ chunks, x.length ≤ maxLen ∨ x ∈ U) →
      clen = cur.flatten.length →
      (cur.flatten.length ≤ maxLen ∨ ∃ u ∈ U, cur = [u]) →
      ∀ c ∈ stLoop lastS maxLen sents (chunks, cur, clen),
        c.length ≤ maxLen ∨ c ∈ U := by
  intro sents
  induction sents with
  | nil =>
    intro chunks cur clen _ hch _ hcur c hc
    cases cur with
    | nil =>
      simp [stLoop] at hc
      exact hch c hc
    | cons x xs =>
      simp only [stLoop] at hc
      rw [if_neg (by simp)] at hc
      rcases List.mem_append.mp hc with hmem | hmem
      · exact hch c hmem
      · have hc2 : c = (x :: xs).flatten := by simpa using hmem
        subst hc2
        rcases hcur with h | ⟨u, hu, he⟩
        · exact Or.inl h
        · injection he with h1 h2
          subst h1
          subst h2
          right
          simpa using hu
  | cons sentence rest ih =>
    intro chunks cur clen hs hch hlen hcur c hc
    have hu : toUnit lastS sentence ∈ U := hs sentence (by simp)
    have hs2 : ∀ s ∈ rest, toUnit lastS s ∈ U := fun s h => hs s (by simp [h])
    rw [stLoop] at hc
    by_cases h1 : clen + (toUnit lastS sentence).length > maxLen
    · rw [if_pos h1] at hc
      cases cur with
      | nil =>
        rw [if_pos (by simp)] at hc
        refine ih chunks ([] ++ [toUnit lastS sentence])
          (clen + (toUnit lastS sentence).length) hs2 hch ?_ ?_ c hc
        · simp at hlen
          simp [hlen]
        · right
          exact ⟨toUnit lastS sentence, hu, by simp⟩
      | cons x xs =>
        rw [if_neg (by simp)] at hc
        refine ih (chunks ++ [(x :: xs).flatten]) [toUnit lastS sentence]
          (toUnit lastS sentence).length hs2 ?_ (by simp) ?_ c hc
        · intro z hz
          rcases List.mem_append.mp hz with hz | hz
          · exact hch z hz
          · simp only [List.mem_singleton] at hz
            subst hz
            rcases hcur with h | ⟨u, hu2, he⟩
            · exact Or.inl h
            · right
              rw [he]
              simpa using hu2
        · right
          exact ⟨toUnit lastS sentence, hu, by simp⟩
    · rw [if_neg h1] at hc
      refine ih chunks (cur ++ [toUnit lastS sentence])
        (clen + (toUnit lastS sentence).length) hs2 hch ?_ ?_ c hc
      · simp [hlen]
      · left
        have : (cur ++ [toUnit lastS sentence]).flatten.length =
            cur.flatten.length + (toUnit lastS sentence).length := by simp
        rw [this, ← hlen]
        omega

/-! # Claim theorems: C2 -/

/-- Claim C2 (counterexample): with `max_chunk_size = 10` and
`min_chunk_size = 8`, `split_into_chunks` on `"aaaaa\n\nbbbbbbbb"` returns
one chunk of length 15 > 10 although every indivisible unit of the input —
every paragraph, and a fortiori every sentence and word — has length at
most 10: the `current_size >= min_chunk_size` guard (cleanup.py line 39)
skips the flush, so the chunk absorbs both paragraphs and exceeds the
maximum without being a single oversized unit. -/
theorem c2_counterexample :
    (∃ c ∈ split_into_chunks (pystr "aaaaa\n\nbbbbbbbb") 10 8, 10 < c.length) ∧
    (∀ p ∈ split2 '\n' '\n' (pystr "aaaaa\n\nbbbbbbbb"), p.length ≤ 10) ∧
    (∀ w ∈ wordsOf (pystr "aaaaa\n\nbbbbbbbb"), w.length ≤ 10) := by decide

/-- Claim C2 (amended): the bound holds for `split_text` in audiobook.py:
every chunk it returns either has length at most the maximum size or is a
single sentence unit (one element of the `'. '`-split with its separator
re-appended) standing alone as its own chunk.  (`split_into_chunks` in
cleanup.py violates the bound, see the counterexample: its
`min_chunk_size` guard can let a chunk of several paragraphs grow past
the maximum.) -/
theorem c2_amended (text : Str) (maxLen : Nat) (c : Str)
    (hc : c ∈ split_text text maxLen) :
    c.length ≤ maxLen ∨ c ∈ sentenceUnits text := by
  refine stLoop_chunk_bound ((sentencesOf text).getLastD []) maxLen
    (sentenceUnits text) (sentencesOf text) [] [] 0 ?_ ?_ rfl ?_ c hc
  · intro s hs
    exact List.mem_map_of_mem _ hs
  · intro x hx
    simp at hx
  · left
    simp

/-- Witness for C2 (amended): the oversized single-sentence chunk of
`split_text "Looooong. B" 4` is the sentence unit `"Looooong. "`. -/
theorem c2_amended_witness :
    (pystr "Looooong. " ∈ split_text (pystr "Looooong. B") 4) ∧
      ((pystr "Looooong. ").length ≤ 4 ∨
        pystr "Looooong. " ∈ sentenceUnits (pystr "Looooong. B")) :=
  ⟨by decide, c2_amended (pystr "Looooong. B") 4 (pystr "Looooong. ") (by decide)⟩

lemma toUnit_ne_nil (lastS : Str) (hlast : lastS ≠ []) (s : Str) :
    toUnit lastS s ≠ [] := by
  by_cases hs : s = lastS
  · simpa [toUnit, hs] using hlast
  · simp [toUnit, hs, sepDotSpace]

lemma stLoop_ne_nil (lastS : Str) (maxLen : Nat) (hlast : lastS ≠ []) :
    ∀ (sents chunks cur : List Str) (clen : Nat),
      (∀ x ∈ chunks, x ≠ []) → (∀ x ∈ cur, x ≠ []) →
      ∀ c ∈ stLoop lastS maxLen sents (chunks, cur, clen), c ≠ [] := by
  intro sents
  induction sents with
  | nil =>
    intro chunks cur clen hch hcur c hc
    cases cur with
    | nil =>
      simp [stLoop] at hc
      exact hch c hc
    | cons x xs =>
      simp only [stLoop] at hc
      rw [if_neg (by simp)] at hc
      rcases List.mem_append.mp hc with hmem | hmem
      · exact hch c hmem
      · have hc2 : c = (x :: xs).flatten := by simpa using hmem
        subst hc2
        have hx : x ≠ [] := hcur x (by simp)
        simp only [List.flatten_cons, ne_eq, List.append_eq_nil]
        rintro ⟨h1, _⟩
        exact hx h1
  | cons sentence rest ih =>
    intro chunks cur clen hch hcur c hc
    have hu : toUnit lastS sentence ≠ [] := toUnit_ne_nil lastS hlast sentence
    rw [stLoop] at hc
    by_cases h1 : clen + (toUnit lastS sentence).length > maxLen
    · rw [if_pos h1] at hc
      cases cur with
      | nil =>
        rw [if_pos (by simp)] at hc
        refine ih chunks ([] ++ [toUnit lastS sentence]) _ hch ?_ c hc
        intro x hx
        have : x = toUnit lastS sentence := by simpa using hx
        subst this
        exact hu
      | cons y ys =>
        rw [if_neg (by simp)] at hc
        refine ih (chunks ++ [(y :: ys).flatten]) [toUnit lastS sentence] _ ?_ ?_ c hc
        · intro z hz
          rcases List.mem_append.mp hz with h | h
          · exact hch z h
          · have : z = (y :: ys).flatten := by simpa using h
            subst this
            have hy : y ≠ [] := hcur y (by simp)
            simp only [List.flatten_cons, ne_eq, List.append_eq_nil]
            rintro ⟨h1, _⟩
            exact hy h1
        · intro x hx
          have : x = toUnit lastS sentence := by simpa using hx
          subst this
          exact hu
    · rw [if_neg h1] at hc
      refine ih chunks (cur ++ [toUnit lastS sentence]) _ hch ?_ c hc
      intro x hx
      rcases List.mem_append.mp hx with h | h
      · exact hcur x h
      · have : x = toUnit lastS sentence := by simpa using h
        subst this
        exact hu

lemma joinSep_ne_nil (sep x : Str) (xs : List Str) (hx : x ≠ []) :
    joinSep sep (x :: xs) ≠ [] := by
  cases xs with
  | nil => simpa [joinSep] using hx
  | cons y ys =>
    simp only [joinSep, ne_eq, List.append_eq_nil]
    rintro ⟨⟨h1, _⟩, _⟩
    exact hx h1

lemma sicLoop_ne_nil (maxSize minSize : Nat) (hmin : 0 < minSize) :
    ∀ (ps chunks cur : List Str) (csize : Nat),
      (∀ p ∈ ps, p ≠ [] ∧ p.length + 2 ≤ maxSize) →
      (∀ x ∈ chunks, x ≠ []) → (∀ x ∈ cur, x ≠ []) →
      (cur = [] → csize = 0) →
      ∀ c ∈ sicLoop maxSize minSize ps (chunks, cur, csize), c ≠ [] := by
  intro ps
  induction ps with
  | nil =>
    intro chunks cur csize _ hch hcur _ c hc
    cases cur with
    | nil =>
      simp [sicLoop] at hc
      exact hch c hc
    | cons x xs =>
      simp only [sicLoop] at hc
      rw [if_neg (by simp)] at hc
      rcases List.mem_append.mp hc with hmem | hmem
      · exact hch c hmem
      · have hc2 : c = joinSep ['\n', '\n'] (x :: xs) := by simpa using hmem
        subst hc2
        exact joinSep_ne_nil _ x xs (hcur x (by simp))
  | cons p rest ih =>
    intro chunks cur csize hp hch hcur hz c hc
    obtain ⟨hpne, hple⟩ := hp p (by simp)
    have hp2 : ∀ q ∈ rest, q ≠ [] ∧ q.length + 2 ≤ maxSize :=
      fun q h => hp q (by simp [h])
    have hnotlong : ¬ (p.length > maxSize) := by omega
    rw [sicLoop] at hc
    by_cases h1 : csize + p.length + 2 > maxSize
    · rw [if_pos h1] at hc
      by_cases h2 : minSize ≤ csize
      · rw [if_pos h2] at hc
        have hcurne : cur ≠ [] := by
          intro he
          have := hz he
          omega
        rw [show sicOverStep maxSize minSize p
            (chunks ++ [joinSep ['\n', '\n'] cur], [], 0) =
            (chunks ++ [joinSep ['\n', '\n'] cur], [] ++ [p], 0 + p.length + 2) from by
          simp [sicOverStep, hnotlong]] at hc
        refine ih (chunks ++ [joinSep ['\n', '\n'] cur]) ([] ++ [p])
          (0 + p.length + 2) hp2 ?_ ?_ (by simp) c hc
        · intro z hz2
          rcases List.mem_append.mp hz2 with h | h
          · exact hch z h
          · have : z = joinSep ['\n', '\n'] cur := by simpa using h
            subst this
            cases cur with
            | nil => exact absurd rfl hcurne
            | cons a as => exact joinSep_ne_nil _ a as (hcur a (by simp))
        · intro x hx
          have : x = p := by simpa using hx
          subst this
          exact hpne
      · rw [if_neg h2] at hc
        rw [show sicOverStep maxSize minSize p (chunks, cur, csize) =
            (chunks, cur ++ [p], csize + p.length + 2) from by
          simp [sicOverStep, hnotlong]] at hc
        refine ih chunks (cur ++ [p]) (csize + p.length + 2) hp2 hch ?_ (by simp) c hc
        intro x hx
        rcases List.mem_append.mp hx with h | h
        · exact hcur x h
        · have : x = p := by simpa using h
          subst this
          exact hpne
    · rw [if_neg h1] at hc
      refine ih chunks (cur ++ [p]) (csize + p.length + 2) hp2 hch ?_ (by simp) c hc
      intro x hx
      rcases List.mem_append.mp hx with h | h
      · exact hcur x h
      · have : x = p := by simpa using h
        subst this
        exact hpne

/-! # Claim theorems: C5 -/

/-- Claim C5 (counterexample): on the empty input text, with the sources'
default sizes, both chunkers return a single chunk that is the empty
string (`split_text` because `''.split('. ') == ['']` and the final
`if current_chunk:` check sees a non-empty *list*; `split_into_chunks`
likewise for the paragraph split). -/
theorem c5_counterexample :
    [] ∈ split_text [] 500 ∧ [] ∈ split_into_chunks [] 3000 1500 := by decide

/-- Claim C5 (amended): no chunk is the empty string provided the inputs
avoid the degenerate splits: for `split_text`, whenever the last
`'. '`-separated sentence of the (newline-normalised) text is non-empty —
this excludes the empty text — every returned chunk is non-empty; for
`split_into_chunks`, whenever `min_chunk_size` is positive and every
`'\n\n'`-separated paragraph is non-empty and fits the maximum
(`len(paragraph) + 2 <= max_chunk_size`), every returned chunk is
non-empty. -/
theorem c5_amended :
    (∀ (text : Str) (maxLen : Nat),
        (sentencesOf text).getLastD [] ≠ [] →
        ∀ c ∈ split_text text maxLen, c ≠ []) ∧
    (∀ (text : Str) (maxSize minSize : Nat),
        0 < minSize →
        (∀ p ∈ split2 '\n' '\n' text, p ≠ [] ∧ p.length + 2 ≤ maxSize) →
        ∀ c ∈ split_into_chunks text maxSize minSize, c ≠ []) := by
  constructor
  · intro text maxLen h c hc
    exact stLoop_ne_nil ((sentencesOf text).getLastD []) maxLen h
      (sentencesOf text) [] [] 0 (by simp) (by simp) c hc
  · intro text maxSize minSize hmin hp c hc
    exact sicLoop_ne_nil maxSize minSize hmin (split2 '\n' '\n' text) [] [] 0 hp
      (by simp) (by simp) (fun _ => rfl) c hc

/-- Witness for C5 (amended): both conjuncts applied at concrete inputs
(`"Hi"` with maximum 5; `"ab\n\ncd"` with maximum 10 and minimum 1). -/
theorem c5_amended_witness :
    ((sentencesOf (pystr "Hi")).getLastD [] ≠ [] ∧
      ∀ c ∈ split_text (pystr "Hi") 5, c ≠ []) ∧
    ((0 < 1 ∧ ∀ p ∈ split2 '\n' '\n' (pystr "ab\n\ncd"), p ≠ [] ∧ p.length + 2 ≤ 10) ∧
      ∀ c ∈ split_into_chunks (pystr "ab\n\ncd") 10 1, c ≠ []) :=
  ⟨⟨by decide, c5_amended.1 (pystr "Hi") 5 (by decide)⟩,
   ⟨⟨by decide, by decide⟩,
    c5_amended.2 (pystr "ab\n\ncd") 10 1 (by decide) (by decide)⟩⟩

lemma audiobookChunkLoop_eq (tts : Nat → Str → Option (List Int)) :
    ∀ (chunks : List Str) (i : Nat) (acc : List (List Int)),
      audiobookChunkLoop tts i chunks acc = acc ++ successAudiosSpec tts i chunks := by
  intro chunks
  induction chunks with
  | nil => intro i acc; simp [audiobookChunkLoop, successAudiosSpec]
  | cons c rest ih =>
    intro i acc
    rw [audiobookChunkLoop, successAudiosSpec]
    cases h : tts i c with
    | some a => simp [h, ih]
    | none => simp [h, ih]

lemma cleanupLoop_eq (oracle : Str → Option Str) :
    ∀ (chunks acc : List Str),
      cleanupLoop oracle chunks acc =
        acc ++ chunks.map (clean_text_with_ollama oracle) := by
  intro chunks
  induction chunks with
  | nil => intro acc; simp [cleanupLoop]
  | cons c rest ih =>
    intro acc
    rw [cleanupLoop, ih]
    simp

lemma clean_text_with_ollama_getD (oracle : Str → Option Str) (c : Str) :
    clean_text_with_ollama oracle c = (oracle c).getD c := by
  cases h : oracle c with
  | some t => simp [clean_text_with_ollama, h]
  | none => simp [clean_text_with_ollama, h]

/-! # Claim theorems: C4 -/

/-- Claim C4 (counterexample): in the cleanup pipeline, a chunk on which
the external Ollama call fails is *not* omitted from the final joined
artifact: `clean_text_with_ollama` returns the original chunk (cleanup.py
line 24), so on the one-chunk run `["a"]` with an always-failing call the
output is `"a"`, not the empty string the claim's omission semantics
would give. -/
theorem c4_counterexample :
    cleanedJoin (fun _ => none) [pystr "a"] = pystr "a" ∧
    cleanedJoinOmittedSpec (fun _ => none) [pystr "a"] = [] ∧
    ¬ (cleanedJoin (fun _ => none) [pystr "a"] =
        cleanedJoinOmittedSpec (fun _ => none) [pystr "a"]) := by decide

/-- Claim C4 (amended): per-chunk failures from the external call are
caught and the run continues with the remaining chunks in both pipelines,
but the failed chunk's fate differs: in the audiobook pipeline
(`text_to_speech` returning `None`) the chunk contributes nothing — the
collected audio is exactly the successful chunks' audio in order — while
in the cleanup pipeline the chunk's *original* text is joined into the
final artifact in place of a cleaned version (it is not omitted). -/
theorem c4_amended :
    (∀ (tts : Nat → Str → Option (List Int)) (chunks : List Str),
        audiobookChunkLoop tts 1 chunks [] = successAudiosSpec tts 1 chunks) ∧
    (∀ (oracle : Str → Option Str) (chunks : List Str),
        cleanedJoin oracle chunks =
          joinSep ['\n'] (chunks.map (fun c => (oracle c).getD c))) := by
  constructor
  · intro tts chunks
    rw [audiobookChunkLoop_eq]
    simp
  · intro oracle chunks
    rw [cleanedJoin, cleanupLoop_eq]
    simp only [List.nil_append]
    congr 1
    exact List.map_congr_left (fun c _ => clean_text_with_ollama_getD oracle c)

/-! # Claim theorems: C3 -/

/-- Claim C3: in audiobook.py the second `def process_file(input_file,
voice)` (line 143) shadows the three-parameter definition at line 32, so
name resolution yields the 2-parameter function and the `__main__` call
`process_file(input_file, voice, use_gpu)` with 3 arguments raises
`TypeError`; in particular the call never runs the body, so chunking,
synthesis and output writing are never reached. -/
theorem c3_process_file_shadowed :
    resolveDef audiobookModuleDefs (pystr "process_file") = some ⟨2, 2⟩ ∧
    audiobookMainCall = CallResult.typeError ∧
    ∀ stages, audiobookMainCall ≠ CallResult.ran stages := by
  refine ⟨by decide, by decide, ?_⟩
  intro stages h
  have h0 : audiobookMainCall = CallResult.typeError := by decide
  rw [h0] at h
  exact CallResult.noConfusion h

lemma mem_insertByDesc {α : Type} (key : α → Nat) (x z : α) :
    ∀ l, z ∈ insertByDesc key x l → z = x ∨ z ∈ l := by
  intro l
  induction l with
  | nil =>
    intro h
    simpa [insertByDesc] using h
  | cons y ys ih =>
    intro h
    rw [insertByDesc] at h
    by_cases hxy : key y ≤ key x
    · rw [if_pos hxy] at h
      rcases List.mem_cons.mp h with h | h
      · exact Or.inl h
      · exact Or.inr h
    · rw [if_neg hxy] at h
      rcases List.mem_cons.mp h with h | h
      · exact Or.inr (by simp [h])
      · rcases ih h with h | h
        · exact Or.inl h
        · exact Or.inr (by simp [h])

lemma pairwise_insertByDesc {α : Type} (key : α → Nat) (x : α) (l : List α)
    (h : List.Pairwise (fun a b => key b ≤ key a) l) :
    List.Pairwise (fun a b => key b ≤ key a) (insertByDesc key x l) := by
  induction l with
  | nil => simp [insertByDesc]
  | cons y ys ih =>
    obtain ⟨hy, hys⟩ := List.pairwise_cons.mp h
    rw [insertByDesc]
    by_cases hxy : key y ≤ key x
    · rw [if_pos hxy]
      refine List.pairwise_cons.mpr ⟨?_, h⟩
      intro z hz
      rcases List.mem_cons.mp hz with h2 | h2
      · subst h2; exact hxy
      · have := hy z h2
        omega
    · rw [if_neg hxy]
      refine List.pairwise_cons.mpr ⟨?_, ih hys⟩
      intro z hz
      rcases mem_insertByDesc key x z _ hz with h2 | h2
      · subst h2; omega
      · exact hy z h2

lemma pairwise_sortByDesc {α : Type} (key : α → Nat) :
    ∀ l, List.Pairwise (fun a b => key b ≤ key a) (sortByDesc key l) := by
  intro l
  induction l with
  | nil => simp [sortByDesc]
  | cons x xs ih =>
    rw [sortByDesc]
    exact pairwise_insertByDesc key x _ ih

/-! # Claim theorems: C6, C7, C9 -/

/-- Claim C6 (counterexample): `create_podcast_feed` writes
`lastBuildDate` from the wall clock (`datetime.now()`, podcast_feed.py
line 25), so two runs over the same (here: empty) directory state at
clock values 0 and 1 produce different documents — rebuilding is not
idempotent at document level. -/
theorem c6_counterexample :
    create_podcast_feed [] (pystr "T") (pystr "D") 0 ≠
      create_podcast_feed [] (pystr "T") (pystr "D") 1 := by decide

/-- Claim C6 (amended): two runs of `create_podcast_feed` over the same
directory state produce documents with identical item lists and identical
channel title and description; only `lastBuildDate`, taken from the wall
clock, can differ between the two documents. -/
theorem c6_amended (dir : List FileInfo) (ft fd : Str) (t1 t2 : Nat) :
    (create_podcast_feed dir ft fd t1).items =
        (create_podcast_feed dir ft fd t2).items ∧
    (create_podcast_feed dir ft fd t1).feedTitle =
        (create_podcast_feed dir ft fd t2).feedTitle ∧
    (create_podcast_feed dir ft fd t1).feedDescription =
        (create_podcast_feed dir ft fd t2).feedDescription :=
  ⟨rfl, rfl, rfl⟩

/-- Claim C7: the items emitted by `create_podcast_feed` are ordered
newest-first by the corresponding file's modification time (the sort at
podcast_feed.py line 39): along the item list, publication mtimes are
non-increasing. -/
theorem c7_items_newest_first (dir : List FileInfo) (ft fd : Str) (now : Nat) :
    List.Pairwise (fun a b => b.pubMtime ≤ a.pubMtime)
      (create_podcast_feed dir ft fd now).items := by
  show List.Pairwise _
    ((sortByDesc (fun f => f.mtime)
      (dir.filter (fun f => audiobookGlobSuffix.isSuffixOf f.name))).map itemOfFile)
  rw [List.pairwise_map]
  exact pairwise_sortByDesc (fun f : FileInfo => f.mtime) _

/-- Claim C9: on a directory with no file matching `*_audiobook.mp3`,
`create_podcast_feed` (a total function in this model) produces a
document with an empty item list. -/
theorem c9_no_matching_artifacts (dir : List FileInfo) (ft fd : Str) (now : Nat)
    (h : ∀ f ∈ dir, ¬ audiobookGlobSuffix.isSuffixOf f.name = true) :
    (create_podcast_feed dir ft fd now).items = [] := by
  show ((sortByDesc (fun f => f.mtime)
    (dir.filter (fun f => audiobookGlobSuffix.isSuffixOf f.name))).map itemOfFile) = []
  have hf : dir.filter (fun f => audiobookGlobSuffix.isSuffixOf f.name) = [] :=
    List.filter_eq_nil_iff.mpr h
  rw [hf]
  rfl

/-- Witness for C9 at a directory holding one non-matching file. -/
theorem c9_witness :
    (∀ f ∈ [FileInfo.mk (pystr "notes.txt") 3 4],
        ¬ audiobookGlobSuffix.isSuffixOf f.name = true) ∧
      (create_podcast_feed [FileInfo.mk (pystr "notes.txt") 3 4]
        (pystr "T") (pystr "D") 5).items = [] :=
  ⟨by decide,
   c9_no_matching_artifacts [FileInfo.mk (pystr "notes.txt") 3 4]
     (pystr "T") (pystr "D") 5 (by decide)⟩

lemma removeAllFuel_congr (pat : Str) :
    ∀ (f1 f2 : Nat) (s : Str), s.length ≤ f1 → s.length ≤ f2 →
      removeAllFuel pat f1 s = removeAllFuel pat f2 s := by
  intro f1
  induction f1 with
  | zero =>
    intro f2 s h1 _
    have hs : s = [] := List.eq_nil_of_length_eq_zero (Nat.le_zero.mp h1)
    subst hs
    cases f2 <;> simp [removeAllFuel]
  | succ g ih =>
    intro f2 s h1 h2
    cases s with
    | nil => cases f2 <;> simp [removeAllFuel]
    | cons c rest =>
      cases f2 with
      | zero => simp at h2
      | succ g2 =>
        rw [removeAllFuel, removeAllFuel]
        by_cases hp : pat ≠ [] ∧ pat.isPrefixOf (c :: rest)
        · rw [if_pos hp, if_pos hp]
          have hd := List.length_drop (pat.length - 1) rest
          simp only [List.length_cons] at h1 h2
          apply ih
          · omega
          · omega
        · rw [if_neg hp, if_neg hp]
          simp only [List.length_cons] at h1 h2
          have := ih g2 rest (by omega) (by omega)
          rw [this]

lemma removeAll_marker_append (name : Str) :
    removeAll audioPathMarker (audioPathMarker ++ name) =
      removeAll audioPathMarker name := by
  have hpre : audioPathMarker.isPrefixOf (audioPathMarker ++ name) = true := by
    rw [List.isPrefixOf_iff_prefix]
    exact List.prefix_append _ _
  have hlen : (audioPathMarker ++ name).length = name.length + 6 + 1 := by
    simp [audioPathMarker, pystr]
  show removeAllFuel audioPathMarker (audioPathMarker ++ name).length
      (audioPathMarker ++ name) = _
  rw [hlen]
  have hcons : audioPathMarker ++ name =
      '/' :: ((['a', 'u', 'd', 'i', 'o', '/'] : Str) ++ name) := rfl
  rw [hcons]
  rw [removeAllFuel]
  rw [if_pos ⟨by simp [audioPathMarker, pystr], by rw [← hcons]; exact hpre⟩]
  have hdrop : List.drop (audioPathMarker.length - 1)
      ((['a', 'u', 'd', 'i', 'o', '/'] : Str) ++ name) = name := by
    show List.drop 6 _ = name
    exact List.drop_left (['a', 'u', 'd', 'i', 'o', '/'] : Str) name
  rw [hdrop]
  exact removeAllFuel_congr audioPathMarker _ _ name (by omega) (by omega)

lemma do_GET_on_audio (fs : ServerFS) (feedDoc t : Str) :
    do_GET fs feedDoc (audioPathMarker ++ t) =
      match lookupFS fs (removeAll audioPathMarker (audioPathMarker ++ t)) with
      | some bytes => HttpReply.okAudioMpeg bytes
      | none => HttpReply.err404 := by
  have hne : ¬ (audioPathMarker ++ t = pystr "/" ∨
      audioPathMarker ++ t = pystr "/feed" ∨
      audioPathMarker ++ t = pystr "/feed.xml") := by
    rintro (h | h | h) <;> simp [audioPathMarker, pystr] at h
  have hpre : audioPathMarker.isPrefixOf (audioPathMarker ++ t) = true := by
    rw [List.isPrefixOf_iff_prefix]
    exact List.prefix_append _ _
  rw [do_GET, if_neg hne, if_pos hpre]

/-! # Claim theorems: C10 -/

/-- Claim C10: for every GET request whose path begins with `"/audio/"`,
the handler serves the file named by deleting every occurrence of
`"/audio/"` from the path (`self.path.replace("/audio/", "")`, server.py
line 26), relative to the working directory: 200 with the file's bytes
and Content-type `audio/mpeg` when that path exists, 404 otherwise; and
since nothing restricts the name, *any* existing file whose name does not
itself contain `"/audio/"` is served via the path `"/audio/" + name`. -/
theorem c10_audio_serving :
    (∀ (fs : ServerFS) (feedDoc path : Str),
        audioPathMarker.isPrefixOf path = true →
        do_GET fs feedDoc path =
          match lookupFS fs (removeAll audioPathMarker path) with
          | some bytes => HttpReply.okAudioMpeg bytes
          | none => HttpReply.err404) ∧
    (∀ (fs : ServerFS) (feedDoc name bytes : Str),
        lookupFS fs name = some bytes →
        removeAll audioPathMarker name = name →
        do_GET fs feedDoc (audioPathMarker ++ name) =
          HttpReply.okAudioMpeg bytes) := by
  constructor
  · intro fs feedDoc path hpre
    obtain ⟨t, ht⟩ := List.isPrefixOf_iff_prefix.mp hpre
    subst ht
    exact do_GET_on_audio fs feedDoc t
  · intro fs feedDoc name bytes hlk hrm
    rw [do_GET_on_audio fs feedDoc name, removeAll_marker_append, hrm, hlk]

/-- Witness for C10: the handler serves an existing audiobook file, and it
also serves an arbitrary existing non-audio file (`"secret.txt"`) through
the `"/audio/"` route. -/
theorem c10_witness :
    (audioPathMarker.isPrefixOf (pystr "/audio/b_audiobook.mp3") = true ∧
      do_GET [(pystr "b_audiobook.mp3", pystr "MP3")] (pystr "F")
          (pystr "/audio/b_audiobook.mp3") =
        match lookupFS [(pystr "b_audiobook.mp3", pystr "MP3")]
            (removeAll audioPathMarker (pystr "/audio/b_audiobook.mp3")) with
        | some bytes => HttpReply.okAudioMpeg bytes
        | none => HttpReply.err404) ∧
    (lookupFS [(pystr "secret.txt", pystr "S")] (pystr "secret.txt") =
        some (pystr "S") ∧
      removeAll audioPathMarker (pystr "secret.txt") = pystr "secret.txt" ∧
      do_GET [(pystr "secret.txt", pystr "S")] (pystr "F")
          (audioPathMarker ++ pystr "secret.txt") =
        HttpReply.okAudioMpeg (pystr "S")) :=
  ⟨⟨by decide,
    c10_audio_serving.1 [(pystr "b_audiobook.mp3", pystr "MP3")] (pystr "F")
      (pystr "/audio/b_audiobook.mp3") (by decide)⟩,
   ⟨by decide, by decide,
    c10_audio_serving.2 [(pystr "secret.txt", pystr "S")] (pystr "F")
      (pystr "secret.txt") (pystr "S") (by decide) (by decide)⟩⟩
